import Mathlib

/-!
# Verification of the s5-client-js core algorithms

Shallow embedding of the upload partitioner (`src/upload.ts`) and the URL
algebra / domain resolver (`src/utils/url.ts`) of the s5-client-js repository,
together with proofs of the specified properties.

Sizes and counts are JavaScript numbers used as non-negative integers by the
code under consideration; they are embedded as `Nat`.  Fallible functions
(the source throws) are embedded as `Except`/`Option`-valued functions.
-/

set_option autoImplicit false

instance {ε α : Type} [DecidableEq ε] [DecidableEq α] : DecidableEq (Except ε α) := fun
  | .error e, .error f =>
    if h : e = f then .isTrue (by rw [h]) else .isFalse (by intro hc; cases hc; exact h rfl)
  | .error _, .ok _ => .isFalse (by intro h; cases h)
  | .ok _, .error _ => .isFalse (by intro h; cases h)
  | .ok a, .ok b =>
    if h : a = b then .isTrue (by rw [h]) else .isFalse (by intro hc; cases hc; exact h rfl)

/-- Modelled from the spec: `throwValidationError` (from `utils/validation.ts`,
which is not under `src/`) raises an `InvalidArgument` error naming the
offending parameter and the expected shape.  The embedding materialises the
raised error as a value. -/
structure InvalidArgument where
  name : String
  expected : String
deriving DecidableEq, Repr

/-- An upload part `{start, end}`, a half-open byte range
(`end` is a Lean keyword, so the field is named `stop`). -/
structure UploadPart where
  start : Nat
  stop : Nat
deriving DecidableEq, Repr

instance : Inhabited UploadPart := ⟨⟨0, 0⟩⟩

/-- The tus chunk size constant from `src/upload.ts`: `(1 << 22) * 10`. -/
def TUS_CHUNK_SIZE : Nat := (1 <<< 22) * 10

/-- The chunk-distribution loop of `splitSizeIntoChunkAlignedParts`
(`src/upload.ts` lines 543-550): starting from `partCount` zero-sized buckets,
assign `numFullChunks` chunks round-robin,
`partSizes[i % partCount] += chunkSize`. -/
def distributeChunks (numFullChunks partCount chunkSize : Nat) : List Nat :=
  (List.range numFullChunks).foldl
    (fun partSizes i => partSizes.set (i % partCount) (partSizes.getD (i % partCount) 0 + chunkSize))
    (List.replicate partCount 0)

/-- The leftover-assignment step of `splitSizeIntoChunkAlignedParts`
(`src/upload.ts` lines 552-562) applied after `distributeChunks`:
if `leftover = totalSize % chunkSize` is positive it is added to the bucket
at index `min(numFullChunks, partCount - 1)`. -/
def computeSizes (totalSize partCount chunkSize : Nat) : List Nat :=
  let numFullChunks := totalSize / chunkSize
  let partSizes := distributeChunks numFullChunks partCount chunkSize
  let leftover := totalSize % chunkSize
  if leftover > 0 then
    let lastIndex := min numFullChunks (partCount - 1)
    partSizes.set lastIndex (partSizes.getD lastIndex 0 + leftover)
  else
    partSizes

/-- The sizes-to-parts loop of `splitSizeIntoChunkAlignedParts`
(`src/upload.ts` lines 564-573): running cumulative sum turning bucket sizes
into `{start, end}` ranges. -/
def partsFromSizes : List Nat → Nat → List UploadPart
  | [], _ => []
  | s :: rest, lastBoundary =>
    { start := lastBoundary, stop := lastBoundary + s } :: partsFromSizes rest (lastBoundary + s)

/-- `splitSizeIntoChunkAlignedParts` from `src/upload.ts` (lines 526-576):
validation guards followed by round-robin chunk distribution, leftover
assignment and conversion to ranges. -/
def splitSizeIntoChunkAlignedParts (totalSize partCount chunkSize : Nat) :
    Except InvalidArgument (List UploadPart) :=
  if partCount < 1 then
    .error ⟨"partCount", "greater than or equal to 1"⟩
  else if chunkSize < 1 then
    .error ⟨"chunkSize", "greater than or equal to 1"⟩
  else if totalSize ≤ chunkSize then
    .error ⟨"totalSize", "greater than the size of a chunk"⟩
  else
    .ok (partsFromSizes (computeSizes totalSize partCount chunkSize) 0)

/-! ## Lemmas about the chunk-distribution loop -/

theorem distributeChunks_succ (n p c : Nat) :
    distributeChunks (n + 1) p c =
      (distributeChunks n p c).set (n % p) ((distributeChunks n p c).getD (n % p) 0 + c) := by
  simp [distributeChunks, List.range_succ]

theorem distributeChunks_length (n p c : Nat) : (distributeChunks n p c).length = p := by
  induction n with
  | zero => simp [distributeChunks]
  | succ n ih => rw [distributeChunks_succ]; simp [ih]

theorem sum_set_getD_add (l : List Nat) (i c : Nat) (h : i < l.length) :
    (l.set i (l.getD i 0 + c)).sum = l.sum + c := by
  induction l generalizing i with
  | nil => simp at h
  | cons a t ih =>
    cases i with
    | zero => simp [List.getD_cons_zero]; omega
    | succ i =>
      have h' : i < t.length := by simpa using h
      simp only [List.getD_cons_succ, List.set_cons_succ, List.sum_cons, ih i h']
      omega

/-- How many chunks the round-robin loop assigns to bucket `j`. -/
def chunkCount (n p j : Nat) : Nat := (List.range n).countP (fun i => i % p == j)

theorem chunkCount_succ (n p j : Nat) :
    chunkCount (n + 1) p j = chunkCount n p j + (if n % p = j then 1 else 0) := by
  simp [chunkCount, List.range_succ, List.countP_append, List.countP_cons]

theorem getD_replicate_zero (p j : Nat) : (List.replicate p (0 : Nat)).getD j 0 = 0 := by
  induction p generalizing j with
  | zero => simp
  | succ p ih => cases j <;> simp [List.replicate_succ, ih]

theorem getD_set_self_nat (l : List Nat) (i v : Nat) (h : i < l.length) :
    (l.set i v).getD i 0 = v := by
  induction l generalizing i with
  | nil => simp at h
  | cons a t ih =>
    cases i with
    | zero => rfl
    | succ i =>
      simp only [List.set_cons_succ, List.getD_cons_succ]
      exact ih i (by simpa using h)

theorem getD_set_ne_nat (l : List Nat) (i j v : Nat) (hne : i ≠ j) :
    (l.set i v).getD j 0 = l.getD j 0 := by
  induction l generalizing i j with
  | nil => simp
  | cons a t ih =>
    cases i with
    | zero =>
      cases j with
      | zero => exact absurd rfl hne
      | succ j => simp
    | succ i =>
      cases j with
      | zero => simp
      | succ j =>
        simp only [List.set_cons_succ, List.getD_cons_succ]
        exact ih i j (by omega)

theorem distributeChunks_getD (n p c : Nat) (j : Nat) (hj : j < p) :
    (distributeChunks n p c).getD j 0 = c * chunkCount n p j := by
  induction n with
  | zero => simp [distributeChunks, chunkCount, getD_replicate_zero]
  | succ n ih =>
    have hlen : (distributeChunks n p c).length = p := distributeChunks_length n p c
    have hm : n % p < p := Nat.mod_lt _ (by omega)
    rw [distributeChunks_succ, chunkCount_succ]
    by_cases hcase : n % p = j
    · subst hcase
      rw [getD_set_self_nat _ _ _ (by omega), ih]
      simp [Nat.mul_add]
    · rw [getD_set_ne_nat _ _ _ _ hcase, ih]
      simp [hcase]

theorem distributeChunks_dvd (n p c : Nat) : ∀ x ∈ distributeChunks n p c, c ∣ x := by
  induction n with
  | zero =>
    intro x hx
    simp [distributeChunks] at hx
    rcases hx with ⟨-, rfl⟩
    exact Dvd.intro 0 rfl
  | succ n ih =>
    rw [distributeChunks_succ]
    intro x hx
    rcases List.mem_or_eq_of_mem_set hx with h | h
    · exact ih x h
    · subst h
      by_cases hlt : n % p < (distributeChunks n p c).length
      · have hmem : (distributeChunks n p c).getD (n % p) 0 ∈ distributeChunks n p c := by
          rw [List.getD_eq_getElem _ 0 hlt]
          exact List.getElem_mem hlt
        exact Nat.dvd_add (ih _ hmem) dvd_rfl
      · rw [List.getD_eq_default _ _ (le_of_not_lt hlt)]
        simp

theorem distributeChunks_sum (n p c : Nat) (hp : 1 ≤ p) :
    (distributeChunks n p c).sum = c * n := by
  induction n with
  | zero => simp [distributeChunks]
  | succ n ih =>
    rw [distributeChunks_succ,
      sum_set_getD_add _ _ _ (by rw [distributeChunks_length]; exact Nat.mod_lt _ hp), ih]
    ring

/-! ## Lemmas about the final bucket sizes -/

theorem computeSizes_length (t p c : Nat) : (computeSizes t p c).length = p := by
  simp only [computeSizes]
  split <;> simp [distributeChunks_length]

theorem computeSizes_sum (t p c : Nat) (hp : 1 ≤ p) :
    (computeSizes t p c).sum = t := by
  simp only [computeSizes]
  by_cases h : t % c > 0
  · rw [if_pos h]
    rw [sum_set_getD_add _ _ _ (by rw [distributeChunks_length]; omega)]
    rw [distributeChunks_sum _ _ _ hp]
    have := Nat.div_add_mod t c
    omega
  · rw [if_neg h]
    rw [distributeChunks_sum _ _ _ hp]
    have := Nat.div_add_mod t c
    omega

theorem computeSizes_getD (t p c : Nat) (j : Nat) (hp : 1 ≤ p) (hj : j < p) :
    (computeSizes t p c).getD j 0 =
      c * chunkCount (t / c) p j +
        (if t % c > 0 ∧ j = min (t / c) (p - 1) then t % c else 0) := by
  simp only [computeSizes]
  have hlen : (distributeChunks (t / c) p c).length = p := distributeChunks_length _ _ _
  by_cases h : t % c > 0
  · rw [if_pos h]
    by_cases hcase : j = min (t / c) (p - 1)
    · subst hcase
      rw [getD_set_self_nat _ _ _ (by omega)]
      rw [distributeChunks_getD _ _ _ _ hj]
      simp [h]
    · rw [getD_set_ne_nat _ _ _ _ (by omega)]
      rw [distributeChunks_getD _ _ _ _ hj]
      simp [h, hcase]
  · rw [if_neg h]
    rw [distributeChunks_getD _ _ _ _ hj]
    simp [h]

/-! ## Lemmas about the sizes-to-parts conversion -/

theorem partsFromSizes_length (sizes : List Nat) (b : Nat) :
    (partsFromSizes sizes b).length = sizes.length := by
  induction sizes generalizing b with
  | nil => rfl
  | cons s rest ih => simp [partsFromSizes, ih]

theorem partsFromSizes_map_size (sizes : List Nat) (b : Nat) :
    (partsFromSizes sizes b).map (fun pt => pt.stop - pt.start) = sizes := by
  induction sizes generalizing b with
  | nil => rfl
  | cons s rest ih => simp [partsFromSizes, ih]

theorem partsFromSizes_start_le_stop (sizes : List Nat) (b : Nat) :
    ∀ pt ∈ partsFromSizes sizes b, pt.start ≤ pt.stop := by
  induction sizes generalizing b with
  | nil => intro pt h; simp [partsFromSizes] at h
  | cons s rest ih =>
    intro pt h
    rw [partsFromSizes, List.mem_cons] at h
    rcases h with rfl | h
    · simp
    · exact ih (b + s) pt h

theorem partsFromSizes_getD (sizes : List Nat) (b j : Nat) (hj : j < sizes.length) :
    (partsFromSizes sizes b).getD j ⟨0, 0⟩ =
      ⟨b + (sizes.take j).sum, b + (sizes.take (j + 1)).sum⟩ := by
  induction sizes generalizing b j with
  | nil => simp at hj
  | cons s rest ih =>
    cases j with
    | zero => simp [partsFromSizes]
    | succ j =>
      have := ih (b + s) j (by simpa using hj)
      simp only [partsFromSizes, List.getD_cons_succ, this, List.take_succ_cons, List.sum_cons]
      congr 1 <;> omega

theorem sum_take_succ_getD (sizes : List Nat) (j : Nat) (hj : j < sizes.length) :
    (sizes.take (j + 1)).sum = (sizes.take j).sum + sizes.getD j 0 := by
  induction sizes generalizing j with
  | nil => simp at hj
  | cons s rest ih =>
    cases j with
    | zero => simp
    | succ j =>
      simp only [List.take_succ_cons, List.sum_cons, List.getD_cons_succ,
        ih j (by simpa using hj)]
      omega

theorem partsFromSizes_stop_eq (sizes : List Nat) (b j : Nat) (hj : j < sizes.length) :
    ((partsFromSizes sizes b).getD j ⟨0, 0⟩).stop
      = ((partsFromSizes sizes b).getD j ⟨0, 0⟩).start + sizes.getD j 0 := by
  rw [partsFromSizes_getD sizes b j hj]
  simp [sum_take_succ_getD sizes j hj]
  omega

theorem countP_set_le {α : Type} (pred : α → Bool) (l : List α) (i : Nat) (v : α) :
    (l.set i v).countP pred ≤ l.countP pred + 1 := by
  induction l generalizing i with
  | nil => simp
  | cons a t ih =>
    cases i with
    | zero =>
      simp only [List.set_cons_zero, List.countP_cons]
      by_cases hv : pred v <;> by_cases ha : pred a <;> simp [hv, ha]
      all_goals omega
    | succ i =>
      simp only [List.set_cons_succ, List.countP_cons]
      have := ih i
      omega

theorem chunkCount_eq_zero (n p j : Nat) (hn : n ≤ j) (hj : j < p) : chunkCount n p j = 0 := by
  rw [chunkCount, List.countP_eq_zero]
  intro i hi
  rw [List.mem_range] at hi
  have hieq : i % p = i := Nat.mod_eq_of_lt (by omega)
  simp [hieq]
  omega

/-! ## The partitioner claims -/

/-- **C1**: for every `(totalSize, partCount, chunkSize)` with `partCount ≥ 1`,
`chunkSize ≥ 1` and `totalSize > chunkSize`, the list returned by
`splitSizeIntoChunkAlignedParts` is a sequence of half-open `{start, end}`
ranges that is ordered and contiguous (the first part starts at 0, each part's
end equals the next part's start, no part has end < start) and exactly tiles
`[0, totalSize)`: the part sizes sum to `totalSize` and the last part ends at
`totalSize`. -/
theorem split_parts_tile_total (t p c : Nat) (hp : 1 ≤ p) (hc : 1 ≤ c) (ht : c < t) :
    ∃ parts, splitSizeIntoChunkAlignedParts t p c = .ok parts ∧
      parts.length = p ∧
      (parts.getD 0 ⟨0, 0⟩).start = 0 ∧
      (∀ j, j + 1 < p → (parts.getD j ⟨0, 0⟩).stop = (parts.getD (j + 1) ⟨0, 0⟩).start) ∧
      (∀ pt ∈ parts, pt.start ≤ pt.stop) ∧
      (parts.map (fun pt => pt.stop - pt.start)).sum = t ∧
      (parts.getD (p - 1) ⟨0, 0⟩).stop = t := by
  have hlen := computeSizes_length t p c
  refine ⟨partsFromSizes (computeSizes t p c) 0, ?_, ?_, ?_, ?_, ?_, ?_, ?_⟩
  · simp only [splitSizeIntoChunkAlignedParts]
    rw [if_neg (by omega), if_neg (by omega), if_neg (by omega)]
  · rw [partsFromSizes_length, hlen]
  · rw [partsFromSizes_getD _ _ _ (by omega)]
    simp
  · intro j hj
    rw [partsFromSizes_getD _ _ _ (by omega), partsFromSizes_getD _ _ _ (by omega)]
  · exact partsFromSizes_start_le_stop _ _
  · rw [partsFromSizes_map_size, computeSizes_sum t p c hp]
  · rw [partsFromSizes_getD _ _ _ (by omega)]
    have hsucc : p - 1 + 1 = p := by omega
    rw [hsucc, List.take_of_length_le (le_of_eq hlen)]
    simp [computeSizes_sum t p c hp]

/-- Witness for C1 at the concrete input `(25, 2, 10)`. -/
theorem split_parts_tile_total_witness :
    ∃ parts, splitSizeIntoChunkAlignedParts 25 2 10 = .ok parts ∧
      parts.length = 2 ∧
      (parts.getD 0 ⟨0, 0⟩).start = 0 ∧
      (∀ j, j + 1 < 2 → (parts.getD j ⟨0, 0⟩).stop = (parts.getD (j + 1) ⟨0, 0⟩).start) ∧
      (∀ pt ∈ parts, pt.start ≤ pt.stop) ∧
      (parts.map (fun pt => pt.stop - pt.start)).sum = 25 ∧
      (parts.getD (2 - 1) ⟨0, 0⟩).stop = 25 :=
  split_parts_tile_total 25 2 10 (by decide) (by decide) (by decide)

/-- **C2**: for valid inputs at most one part's size is not a multiple of
`chunkSize`; all buckets other than the one at index
`min(totalSize / chunkSize, partCount - 1)` are chunk-aligned and, when the
leftover `totalSize % chunkSize` is nonzero, it sits entirely in that bucket
(the bucket size is the leftover modulo `chunkSize`); in particular
`splitSizeIntoChunkAlignedParts 25 2 10 = [{0, 10}, {10, 25}]`. -/
theorem split_leftover_single_bucket (t p c : Nat) (hp : 1 ≤ p) (hc : 1 ≤ c) (ht : c < t) :
    ∃ parts, splitSizeIntoChunkAlignedParts t p c = .ok parts ∧
      parts.countP (fun pt => (pt.stop - pt.start) % c != 0) ≤ 1 ∧
      (∀ j, j < p → j ≠ min (t / c) (p - 1) →
        c ∣ ((parts.getD j ⟨0, 0⟩).stop - (parts.getD j ⟨0, 0⟩).start)) ∧
      ((parts.getD (min (t / c) (p - 1)) ⟨0, 0⟩).stop
          - (parts.getD (min (t / c) (p - 1)) ⟨0, 0⟩).start) % c = t % c ∧
      splitSizeIntoChunkAlignedParts 25 2 10 = .ok [⟨0, 10⟩, ⟨10, 25⟩] := by
  have hlen := computeSizes_length t p c
  have hmin : min (t / c) (p - 1) < p := by omega
  have hsize : ∀ j, j < p →
      ((partsFromSizes (computeSizes t p c) 0).getD j ⟨0, 0⟩).stop
        - ((partsFromSizes (computeSizes t p c) 0).getD j ⟨0, 0⟩).start
        = (computeSizes t p c).getD j 0 := by
    intro j hj
    rw [partsFromSizes_stop_eq _ _ _ (by omega)]
    omega
  refine ⟨partsFromSizes (computeSizes t p c) 0, ?_, ?_, ?_, ?_, by decide⟩
  · simp only [splitSizeIntoChunkAlignedParts]
    rw [if_neg (by omega), if_neg (by omega), if_neg (by omega)]
  · have hdvd : ∀ x ∈ distributeChunks (t / c) p c, x % c = 0 := fun x hx =>
      Nat.mod_eq_zero_of_dvd (distributeChunks_dvd _ _ _ x hx)
    have hcount :
        (partsFromSizes (computeSizes t p c) 0).countP
            (fun pt => (pt.stop - pt.start) % c != 0)
          = (computeSizes t p c).countP (fun s => s % c != 0) := by
      conv_rhs => rw [← partsFromSizes_map_size (computeSizes t p c) 0]
      rw [List.countP_map]
      rfl
    rw [hcount]
    have hbase : (distributeChunks (t / c) p c).countP (fun s => s % c != 0) = 0 := by
      rw [List.countP_eq_zero]
      intro x hx
      simp [hdvd x hx]
    simp only [computeSizes]
    by_cases h : t % c > 0
    · rw [if_pos h]
      have := countP_set_le (fun s => s % c != 0) (distributeChunks (t / c) p c)
        (min (t / c) (p - 1))
        ((distributeChunks (t / c) p c).getD (min (t / c) (p - 1)) 0 + t % c)
      omega
    · rw [if_neg h, hbase]
      omega
  · intro j hj hne
    rw [hsize j hj, computeSizes_getD t p c j hp hj]
    simp [hne]
  · rw [hsize _ hmin, computeSizes_getD t p c _ hp hmin]
    by_cases h : t % c > 0
    · rw [if_pos (by exact ⟨h, rfl⟩)]
      rw [Nat.mul_add_mod, Nat.mod_mod]
    · have h0 : t % c = 0 := by omega
      rw [if_neg (by simp [h])]
      simp [Nat.mul_add_mod, h0]

/-- Witness for C2 at the concrete input `(25, 2, 10)`. -/
theorem split_leftover_single_bucket_witness :
    ∃ parts, splitSizeIntoChunkAlignedParts 25 2 10 = .ok parts ∧
      parts.countP (fun pt => (pt.stop - pt.start) % 10 != 0) ≤ 1 ∧
      (∀ j, j < 2 → j ≠ min (25 / 10) (2 - 1) →
        10 ∣ ((parts.getD j ⟨0, 0⟩).stop - (parts.getD j ⟨0, 0⟩).start)) ∧
      ((parts.getD (min (25 / 10) (2 - 1)) ⟨0, 0⟩).stop
          - (parts.getD (min (25 / 10) (2 - 1)) ⟨0, 0⟩).start) % 10 = 25 % 10 ∧
      splitSizeIntoChunkAlignedParts 25 2 10 = .ok [⟨0, 10⟩, ⟨10, 25⟩] :=
  split_leftover_single_bucket 25 2 10 (by decide) (by decide) (by decide)

/-- **C6**: `splitSizeIntoChunkAlignedParts` fails with an `InvalidArgument`
validation error exactly when a precondition is violated: `partCount < 1`,
`chunkSize < 1` or `totalSize ≤ chunkSize` each produce the corresponding
error (checked in that order), and when all three preconditions hold the
function returns parts and does not raise. -/
theorem split_precondition_errors (t p c : Nat) :
    (p < 1 → splitSizeIntoChunkAlignedParts t p c =
        .error ⟨"partCount", "greater than or equal to 1"⟩) ∧
    (1 ≤ p → c < 1 → splitSizeIntoChunkAlignedParts t p c =
        .error ⟨"chunkSize", "greater than or equal to 1"⟩) ∧
    (1 ≤ p → 1 ≤ c → t ≤ c → splitSizeIntoChunkAlignedParts t p c =
        .error ⟨"totalSize", "greater than the size of a chunk"⟩) ∧
    (1 ≤ p → 1 ≤ c → c < t →
      ∃ parts, splitSizeIntoChunkAlignedParts t p c = .ok parts) := by
  simp only [splitSizeIntoChunkAlignedParts]
  refine ⟨?_, ?_, ?_, ?_⟩ <;> intros
  · rw [if_pos (by omega)]
  · rw [if_neg (by omega), if_pos (by omega)]
  · rw [if_neg (by omega), if_neg (by omega), if_pos (by omega)]
  · exact ⟨_, by rw [if_neg (by omega), if_neg (by omega), if_neg (by omega)]⟩

/-- Witness for C6: each precondition violation at a concrete input, and a
concrete valid input that succeeds. -/
theorem split_precondition_errors_witness :
    splitSizeIntoChunkAlignedParts 25 0 10 =
        .error ⟨"partCount", "greater than or equal to 1"⟩ ∧
    splitSizeIntoChunkAlignedParts 25 2 0 =
        .error ⟨"chunkSize", "greater than or equal to 1"⟩ ∧
    splitSizeIntoChunkAlignedParts 5 2 10 =
        .error ⟨"totalSize", "greater than the size of a chunk"⟩ ∧
    ∃ parts, splitSizeIntoChunkAlignedParts 25 2 10 = .ok parts :=
  ⟨(split_precondition_errors 25 0 10).1 (by decide),
   (split_precondition_errors 25 2 0).2.1 (by decide) (by decide),
   (split_precondition_errors 5 2 10).2.2.1 (by decide) (by decide) (by decide),
   (split_precondition_errors 25 2 10).2.2.2 (by decide) (by decide) (by decide)⟩

/-- **C9**: for every valid input, `splitSizeIntoChunkAlignedParts` returns
exactly `partCount` parts, and every part whose index is at least
`totalSize / chunkSize + 1` is an empty range with `start = end` (trailing
parts receive zero bytes). -/
theorem split_trailing_empty (t p c : Nat) (hp : 1 ≤ p) (hc : 1 ≤ c) (ht : c < t) :
    ∃ parts, splitSizeIntoChunkAlignedParts t p c = .ok parts ∧ parts.length = p ∧
      ∀ j, t / c + 1 ≤ j → j < p →
        (parts.getD j ⟨0, 0⟩).start = (parts.getD j ⟨0, 0⟩).stop := by
  have hlen := computeSizes_length t p c
  refine ⟨partsFromSizes (computeSizes t p c) 0, ?_, ?_, ?_⟩
  · simp only [splitSizeIntoChunkAlignedParts]
    rw [if_neg (by omega), if_neg (by omega), if_neg (by omega)]
  · rw [partsFromSizes_length, hlen]
  · intro j hj hjp
    have hzero : (computeSizes t p c).getD j 0 = 0 := by
      rw [computeSizes_getD t p c j hp hjp]
      rw [chunkCount_eq_zero _ _ _ (by omega) hjp]
      have : j ≠ min (t / c) (p - 1) := by omega
      simp [this]
    rw [partsFromSizes_stop_eq _ _ _ (by omega), hzero]
    simp

/-- Witness for C9 at the concrete input `(25, 5, 10)`: parts 3 and 4 are
empty. -/
theorem split_trailing_empty_witness :
    ∃ parts, splitSizeIntoChunkAlignedParts 25 5 10 = .ok parts ∧ parts.length = 5 ∧
      ∀ j, 25 / 10 + 1 ≤ j → j < 5 →
        (parts.getD j ⟨0, 0⟩).start = (parts.getD j ⟨0, 0⟩).stop :=
  split_trailing_empty 25 5 10 (by decide) (by decide) (by decide)

/-! ## URL algebra (`src/utils/url.ts`)

Strings are embedded as lists of characters (`Str`).  The WHATWG `URL`
platform class used by the source is modelled by `parseUrl`/`urlToString`
restricted to `scheme://host/path` URLs without userinfo, port, query or
fragment; inputs outside this fragment are rejected (`none`) where the real
parser would perform further normalisation, and hypotheses of the theorems
below keep inputs inside the fragment. -/

/-- JavaScript strings, embedded as lists of characters. -/
abbrev Str : Type := List Char

/-- A string literal as a `Str`. -/
def S (s : String) : Str := s.data

/-- `String.prototype.toLowerCase` on ASCII strings. -/
def toLowerStr (s : Str) : Str := s.map Char.toLower

/-- Modelled from the spec: `trimForwardSlash` (from `utils/string.ts`, not
under `src/`) strips all leading and trailing slashes. -/
def trimForwardSlash (s : Str) : Str :=
  ((s.dropWhile (fun c => c == '/')).reverse.dropWhile (fun c => c == '/')).reverse

/-- Modelled from the spec: `trimSuffix` with limit 1 (from `utils/string.ts`,
not under `src/`) removes at most one trailing occurrence of the suffix. -/
def trimSuffix1 (s suf : Str) : Str :=
  if suf.isSuffixOf s then s.take (s.length - suf.length) else s

/-- Fuel-indexed helper for `trimSuffixAll` (structural recursion so that
concrete evaluation reduces in the kernel). -/
def trimSuffixFuel : Nat → Str → Str → Str
  | 0, s, _ => s
  | k + 1, s, suf =>
    if !suf.isEmpty && suf.isSuffixOf s then
      trimSuffixFuel k (s.take (s.length - suf.length)) suf
    else s

/-- Modelled from the spec: unlimited `trimSuffix` (from `utils/string.ts`,
not under `src/`) strips every trailing occurrence of the suffix. -/
def trimSuffixAll (s suf : Str) : Str := trimSuffixFuel s.length s suf

/-- Modelled from the spec: `trimUriPrefix` (from `utils/string.ts`, not under
`src/`) strips the given URI prefix from the start of the string when present
("stripping any `http://` prefix the caller supplied" / "strip a known
CID-scheme prefix"). -/
def trimUriPrefix (s p : Str) : Str :=
  if p.isPrefixOf s then s.drop p.length else s

/-- `ensurePrefix` from `src/utils/url.ts` (lines 101-106). -/
def ensurePrefix (str pre : Str) : Str :=
  if pre.isPrefixOf str then str else pre ++ str

/-- `ensureUrl` from `src/utils/url.ts` (lines 114-119): returns the string
unchanged when it starts with `http://`, otherwise ensures an `https://`
prefix. -/
def ensureUrl (url : Str) : Str :=
  if (S "http://").isPrefixOf url then url else ensurePrefix url (S "https://")

/-- The test of the regular expression `/^https?:(\/\/)?/i` from
`src/utils/url.ts` line 132: the string starts case-insensitively with
`http:` or `https:` (the optional `//` group does not affect matching). -/
def httpRegexTest (url : Str) : Bool :=
  (S "http:").isPrefixOf (toLowerStr url) || (S "https:").isPrefixOf (toLowerStr url)

/-- `ensureUrlPrefix` from `src/utils/url.ts` (lines 127-136). -/
def ensureUrlPrefix (url : Str) : Str :=
  if url = S "localhost" then S "http://localhost/"
  else if httpRegexTest url then url
  else S "https://" ++ url

/-- `makeUrl` from `src/utils/url.ts` (lines 145-150).  The external
`url-join` npm library is taken as an explicit function parameter; with no
arguments the source calls `throwValidationError`, with arguments it applies
`ensureUrl` to the left-fold (`Array.prototype.reduce`) of the parts through
`urljoin`. -/
def makeUrl (urljoin : Str → Str → Str) (args : List Str) : Except InvalidArgument Str :=
  match args with
  | [] => .error ⟨"args", "non-empty"⟩
  | a :: rest => .ok (ensureUrl (rest.foldl urljoin a))

/-- A parsed URL object: the relevant components of the WHATWG `URL` class
(`scheme://host` + pathname). -/
structure UrlObj where
  scheme : Str
  host : Str
  pathname : Str
deriving DecidableEq, Repr

/-- Characters that may not appear in a hostname (the model rejects ports,
userinfo, queries and fragments rather than parsing them). -/
def isForbiddenHostChar (c : Char) : Bool :=
  c == '/' || c == ':' || c == '@' || c == '?' || c == '#' || c == '%' ||
    c == '[' || c == ']' || c == ' '

/-- Authority/path split of the part of a URL after `scheme://`, host
lowercased as the WHATWG parser does; empty or invalid hosts are rejected. -/
def parseUrlAfterScheme (scheme rest : Str) : Option UrlObj :=
  let hostPart := rest.takeWhile (fun c => !(c == '/'))
  let pathPart := rest.dropWhile (fun c => !(c == '/'))
  if hostPart.isEmpty then none
  else if hostPart.any isForbiddenHostChar then none
  else some { scheme := scheme, host := toLowerStr hostPart,
              pathname := if pathPart.isEmpty then S "/" else pathPart }

/-- Model of `new URL(...)` restricted to `http`/`https` URLs.  Besides the
rejections above, the model keeps hosts verbatim (apart from lowercasing) and
therefore does not reproduce the WHATWG parser's IPv4 handling of hosts whose
last label "ends in a number" (`https://99` → host `0.0.0.99`,
`https://portal.99` → failure), its IDNA/Punycode processing of labels
starting with `xn--`, or its treatment of empty labels.  Every theorem below
that depends on how a host parses carries hypotheses (`hasEmptyLabel`,
`hasXnLabel`, `startsWithDigit (lastLabel ·)`) excluding those hosts, so the
theorems only speak about inputs on which this model agrees with the real
parser. -/
def parseUrl (url : Str) : Option UrlObj :=
  if (S "https://").isPrefixOf url then parseUrlAfterScheme (S "https") (url.drop 8)
  else if (S "http://").isPrefixOf url then parseUrlAfterScheme (S "http") (url.drop 7)
  else none

/-- Model of `URL.prototype.toString` for the modelled fragment. -/
def urlToString (u : UrlObj) : Str := u.scheme ++ S "://" ++ u.host ++ u.pathname

/-- Model of the `URL.prototype.hostname` setter: lowercases a valid new
hostname, leaves the object unchanged on an invalid one.  Like `parseUrl`,
the model accepts verbatim some hosts the real setter silently rejects or
rewrites (hosts forced into IPv4 parsing because their last label ends in a
number, `xn--` Punycode labels); theorems that rely on the setter carry
hypotheses excluding those hosts. -/
def setHostname (u : UrlObj) (newHost : Str) : UrlObj :=
  if newHost.isEmpty then u
  else if newHost.any isForbiddenHostChar then u
  else { u with host := toLowerStr newHost }

/-- `addUrlSubdomain` from `src/utils/url.ts` (lines 72-77):
`urlObj.hostname = subdomain + "." + urlObj.hostname`, stringify, trim
trailing slashes. -/
def addUrlSubdomain (url subdomain : Str) : Option Str :=
  (parseUrl url).map fun urlObj =>
    trimSuffixAll (urlToString (setHostname urlObj (subdomain ++ '.' :: urlObj.host))) (S "/")

/-- `addPath` from `src/utils/url.ts` (lines 46-63): trims slashes from the
path, string-concatenates for the special `localhost` base, otherwise sets the
URL object's pathname; the result is trimmed of trailing slashes. -/
def addPath (url path : Str) : Option Str :=
  let path := trimForwardSlash path
  if url = S "localhost" then some (trimSuffixAll (S "localhost/" ++ path) (S "/"))
  else (parseUrl url).map fun urlObj =>
    trimSuffixAll (urlToString { urlObj with pathname := '/' :: path }) (S "/")

/-- The JavaScript split `str.split(/\/(.+)/)` destructured as
`[domain, path]`: splits on the first `/` that is followed by at least one
character; when there is no such `/` the string is returned whole and the
path is absent. -/
def splitFirstSlash (s : Str) : Str × Option Str :=
  let pre := s.takeWhile (fun c => !(c == '/'))
  match s.dropWhile (fun c => !(c == '/')) with
  | [] => (s, none)
  | _ :: tail => if tail.isEmpty then (s, none) else (pre, some tail)

/-- `getFullDomainUrlForPortal` from `src/utils/url.ts` (lines 160-188). -/
def getFullDomainUrlForPortal (portalUrl domain : Str) : Option Str :=
  let portalUrl := ensureUrlPrefix (trimUriPrefix portalUrl (S "http://"))
  let domain := trimForwardSlash (trimUriPrefix domain (S "s5://"))
  let (label, path) := splitFirstSlash domain
  let base := if label = S "localhost" then some (S "localhost")
              else addUrlSubdomain portalUrl label
  match base, path with
  | none, _ => none
  | some url, some p => addPath url p
  | some url, none => some url

/-- `extractDomainForPortal` from `src/utils/url.ts` (lines 198-233).  The
`try`/`catch` of the source is the `match` on `parseUrl`; the absent/empty
path distinction collapses to the empty string exactly as the source's
`if (path && path !== "")` does. -/
def extractDomainForPortal (portalUrl fullDomain : Str) : Option Str :=
  let parsed :=
    match parseUrl fullDomain with
    | some obj => (obj.host, trimForwardSlash obj.pathname)
    | none =>
      let fd := trimForwardSlash fullDomain
      let (host, path) := splitFirstSlash fd
      (toLowerStr host, match path with | some p => p | none => [])
  match parseUrl (ensureUrlPrefix portalUrl) with
  | none => none
  | some portalUrlObj =>
    let portalDomain := trimForwardSlash portalUrlObj.host
    let domain := trimSuffix1 parsed.1 portalDomain
    let domain := trimSuffixAll domain (S ".")
    if parsed.2.isEmpty then some domain
    else some (domain ++ '/' :: trimForwardSlash parsed.2)

example : ensureUrlPrefix (S "localhost") = S "http://localhost/" := by decide

example : ensureUrlPrefix (S "example.com") = S "https://example.com" := by decide

example : ensureUrlPrefix (S "http://x") = S "http://x" := by decide

example : getFullDomainUrlForPortal (S "https://portal.example") (S "abc") =
    some (S "https://abc.portal.example") := by decide

example : extractDomainForPortal (S "https://portal.example")
    (S "https://abc.portal.example") = some (S "abc") := by decide

example : getFullDomainUrlForPortal (S "https://portal.example") (S "abc.hns/dir/file") =
    some (S "https://abc.hns.portal.example/dir/file") := by decide

example : getFullDomainUrlForPortal (S "https://portal.example") (S "localhost") =
    some (S "localhost") := by decide

/-! ## The upload dispatch (`uploadFile`, `src/upload.ts` lines 129-143) -/

/-- The options `uploadFile` reads after merging defaults and overrides. -/
structure ResolvedUploadOptions where
  largeFileSize : Nat
  chunkSizeMultiplier : Nat
deriving DecidableEq, Repr

/-- Which endpoint `uploadFile` dispatches to. -/
inductive UploadRoute
  | small
  | large
deriving DecidableEq, Repr

/-- The small-vs-large dispatch of `uploadFile`:
`if (file.size < opts.largeFileSize * opts.chunkSizeMultiplier)` it calls
`uploadSmallFile` (one multipart-form request to the small-upload endpoint),
otherwise `uploadLargeFile` (the tus path). -/
def uploadFileRoute (fileSize : Nat) (opts : ResolvedUploadOptions) : UploadRoute :=
  if fileSize < opts.largeFileSize * opts.chunkSizeMultiplier then .small else .large

/-- **C4**: `uploadFile` takes the small path exactly when
`file.size < options.largeFileSize * options.chunkSizeMultiplier`; with
`largeFileSize = 40 MiB` and `chunkSizeMultiplier = 1`, a 100 MiB file takes
the large path and a 10 MiB file takes the small path. -/
theorem uploadFile_route_threshold (fileSize largeFileSize chunkSizeMultiplier : Nat) :
    (uploadFileRoute fileSize ⟨largeFileSize, chunkSizeMultiplier⟩ = .small ↔
      fileSize < largeFileSize * chunkSizeMultiplier) ∧
    uploadFileRoute (100 * 1024 * 1024) ⟨40 * 1024 * 1024, 1⟩ = .large ∧
    uploadFileRoute (10 * 1024 * 1024) ⟨40 * 1024 * 1024, 1⟩ = .small := by
  refine ⟨?_, by decide, by decide⟩
  by_cases h : fileSize < largeFileSize * chunkSizeMultiplier <;>
    simp [uploadFileRoute, h]

/-! ## The URL-algebra claims -/

/-- **C5**: `ensureUrlPrefix` (the spec's `ensureSchemePrefix`) returns the
string unchanged when it matches `/^https?:(\/\/)?/i`, returns the literal
`http://localhost/` on the exact input `localhost`, and prepends `https://`
otherwise; in particular on `localhost`, `example.com` and `http://x`. -/
theorem ensureUrlPrefix_spec (s : Str) :
    (httpRegexTest s = true → ensureUrlPrefix s = s) ∧
    (s = S "localhost" → ensureUrlPrefix s = S "http://localhost/") ∧
    (httpRegexTest s = false → s ≠ S "localhost" → ensureUrlPrefix s = S "https://" ++ s) ∧
    ensureUrlPrefix (S "localhost") = S "http://localhost/" ∧
    ensureUrlPrefix (S "example.com") = S "https://example.com" ∧
    ensureUrlPrefix (S "http://x") = S "http://x" := by
  refine ⟨?_, ?_, ?_, by decide, by decide, by decide⟩
  · intro h
    by_cases hl : s = S "localhost"
    · subst hl
      exact absurd h (by decide)
    · simp [ensureUrlPrefix, hl, h]
  · intro h
    subst h
    rfl
  · intro h hl
    simp [ensureUrlPrefix, hl, h]

/-- Witness for C5: the theorem applied at `http://x`, `localhost` and
`example.com`. -/
theorem ensureUrlPrefix_spec_witness :
    ensureUrlPrefix (S "http://x") = S "http://x" ∧
    ensureUrlPrefix (S "localhost") = S "http://localhost/" ∧
    ensureUrlPrefix (S "example.com") = S "https://" ++ S "example.com" :=
  ⟨(ensureUrlPrefix_spec (S "http://x")).1 (by decide),
   (ensureUrlPrefix_spec (S "localhost")).2.1 rfl,
   (ensureUrlPrefix_spec (S "example.com")).2.2.1 (by decide) (by decide)⟩

/-- **C7 counterexample**: for the single part `localhost`, `makeUrl` does not
return `ensureUrlPrefix "localhost"` (`= http://localhost/`); it returns
`ensureUrl "localhost" = https://localhost`, because `makeUrl` calls
`ensureUrl`, not `ensureUrlPrefix`. -/
theorem makeUrl_localhost_cex :
    makeUrl (fun a b => a ++ b) [S "localhost"] ≠ .ok (ensureUrlPrefix (S "localhost")) ∧
    makeUrl (fun a b => a ++ b) [S "localhost"] = .ok (S "https://localhost") ∧
    ensureUrlPrefix (S "localhost") = S "http://localhost/" := by
  refine ⟨by decide, by decide, by decide⟩

/-- **C7 (amended)**: for every non-empty list of parts, `makeUrl` returns
`ensureUrl` (which returns strings starting with `http://` unchanged and
otherwise ensures an `https://` prefix — not the spec's
`ensureSchemePrefix`/`ensureUrlPrefix`) applied to the left-fold of the parts
through the external URL-join; for the single part `localhost` it returns
`https://localhost`. -/
theorem makeUrl_folds_through_ensureUrl (urljoin : Str → Str → Str) (a : Str)
    (rest : List Str) :
    makeUrl urljoin (a :: rest) = .ok (ensureUrl (rest.foldl urljoin a)) ∧
    makeUrl urljoin [S "localhost"] = .ok (S "https://localhost") :=
  ⟨rfl, rfl⟩

/-- **C8**: `makeUrl` called with zero parts fails with an `InvalidArgument`
validation error instead of returning a URL. -/
theorem makeUrl_empty_args_error (urljoin : Str → Str → Str) :
    makeUrl urljoin [] = .error ⟨"args", "non-empty"⟩ := rfl

/-! ## C10: http portal normalisation -/

theorem trimUriPrefix_append (p s : Str) : trimUriPrefix (p ++ s) p = s := by
  have h : p.isPrefixOf (p ++ s) = true := by
    simp [List.isPrefixOf_iff_prefix]
  simp [trimUriPrefix, h, List.drop_left]

theorem ne_cons_of_head_ne {a b : Char} (s t : Str) (h : a ≠ b) :
    (a :: s) ≠ (b :: t) := by
  intro heq
  injection heq with h1 h2
  exact h h1

theorem trimUriPrefix_https_unchanged (rest : Str) :
    trimUriPrefix (S "https://" ++ rest) (S "http://") = S "https://" ++ rest := by
  have h : (S "http://").isPrefixOf (S "https://" ++ rest) = false := rfl
  simp [trimUriPrefix, h]

theorem ensureUrlPrefix_https_append (rest : Str) :
    ensureUrlPrefix (S "https://" ++ rest) = S "https://" ++ rest := by
  have hne : S "https://" ++ rest ≠ S "localhost" := ne_cons_of_head_ne _ _ (by decide)
  have hreg : httpRegexTest (S "https://" ++ rest) = true := rfl
  simp [ensureUrlPrefix, hne, hreg]

/-- **C10 counterexample**: for the portal `http://localhost` the claim fails:
stripping `http://` leaves the literal `localhost`, which `ensureUrlPrefix`
maps to `http://localhost/` (not to `https://localhost`), so the resolved URL
keeps the `http` scheme and differs from the one resolved against
`https://localhost`. -/
theorem http_portal_localhost_cex :
    getFullDomainUrlForPortal (S "http://localhost") (S "abc") =
        some (S "http://abc.localhost") ∧
    getFullDomainUrlForPortal (S "https://localhost") (S "abc") =
        some (S "https://abc.localhost") ∧
    getFullDomainUrlForPortal (S "http://localhost") (S "abc") ≠
      getFullDomainUrlForPortal (S "https://localhost") (S "abc") :=
  ⟨by decide, by decide, by decide⟩

/-- **C10 (amended)**: for every portal of the form `"http://" ++ rest` where
`rest` is not the literal `localhost` and does not itself match
`/^https?:/i`, and for every domain, the resolved URL equals the one for the
same portal written with the `https://` scheme: normalisation strips the
`http://` prefix and prepends `https://`. -/
theorem http_portal_upgraded_to_https (rest d : Str)
    (hl : rest ≠ S "localhost") (hr : httpRegexTest rest = false) :
    getFullDomainUrlForPortal (S "http://" ++ rest) d =
      getFullDomainUrlForPortal (S "https://" ++ rest) d := by
  have hL : ensureUrlPrefix (trimUriPrefix (S "http://" ++ rest) (S "http://"))
      = S "https://" ++ rest := by
    rw [trimUriPrefix_append]
    simp [ensureUrlPrefix, hl, hr]
  have hR : ensureUrlPrefix (trimUriPrefix (S "https://" ++ rest) (S "http://"))
      = S "https://" ++ rest := by
    rw [trimUriPrefix_https_unchanged, ensureUrlPrefix_https_append]
  simp only [getFullDomainUrlForPortal, hL, hR]

/-- Witness for the amended C10 at the portal remainder `portal.example` and
domain `abc`. -/
theorem http_portal_upgraded_witness :
    getFullDomainUrlForPortal (S "http://" ++ S "portal.example") (S "abc") =
      getFullDomainUrlForPortal (S "https://" ++ S "portal.example") (S "abc") :=
  http_portal_upgraded_to_https (S "portal.example") (S "abc") (by decide) (by decide)

/-! ## C3: the build/extract round trip

The round trip is proved for portals `https://host` and label-only domains on
the fragment where the URL model above coincides with the WHATWG parser:
lowercase letters, digits, dots and hyphens, with no empty labels, no
`xn--` (Punycode) labels, and a portal host whose last label does not start
with a digit — the last restriction keeps the hostnames (both the portal's
and the built `domain.host`) clear of the parser's "ends in a number" IPv4
handling (`https://99` → `0.0.0.99`, `https://portal.99` → failure), and the
others clear of IDNA processing. -/

/-- The characters allowed in the labels and hosts of the round-trip
theorem. -/
def domainChars : Str := S "abcdefghijklmnopqrstuvwxyz0123456789.-"

/-- The segment of a hostname after its last dot (the hostname's last label
when the hostname has no trailing dot). -/
def lastLabel (s : Str) : Str := (s.reverse.takeWhile (fun c => !(c == '.'))).reverse

/-- Whether a string starts with an ASCII digit.  A hostname whose last label
starts with a digit is excluded from the round-trip theorem: the WHATWG
parser subjects a host to IPv4 parsing exactly when its last label is all
digits or a `0x` hexadecimal form, both of which start with a digit. -/
def startsWithDigit : Str → Bool
  | [] => false
  | c :: _ => c.isDigit

/-- Whether the pattern occurs as a contiguous subsequence. -/
def containsSeq (pat : Str) : Str → Bool
  | [] => pat.isEmpty
  | c :: rest => pat.isPrefixOf (c :: rest) || containsSeq pat rest

/-- Whether a hostname has an empty label: a leading dot, a trailing dot, or
two consecutive dots. -/
def hasEmptyLabel (s : Str) : Bool :=
  (S ".").isPrefixOf s || (S ".").isSuffixOf s || containsSeq (S "..") s

/-- Whether some label of a hostname starts with the IDNA/Punycode marker
`xn--`. -/
def hasXnLabel (s : Str) : Bool :=
  (S "xn--").isPrefixOf s || containsSeq (S ".xn--") s

theorem domainChars_no_slash : ∀ c ∈ domainChars, (c == '/') = false := by decide

theorem domainChars_not_forbidden : ∀ c ∈ domainChars, isForbiddenHostChar c = false := by
  decide

theorem domainChars_toLower : ∀ c ∈ domainChars, Char.toLower c = c := by decide

theorem toLowerStr_fixed (s : Str) (hs : ∀ c ∈ s, c ∈ domainChars) :
    toLowerStr s = s := by
  induction s with
  | nil => rfl
  | cons a t ih =>
    rw [toLowerStr, List.map_cons]
    rw [domainChars_toLower a (hs a (by simp))]
    rw [show (List.map Char.toLower t) = toLowerStr t from rfl]
    rw [ih (fun c hc => hs c (by simp [hc]))]

theorem dropWhile_slash_eq_self (s : Str) (hs : ∀ c ∈ s, (c == '/') = false) :
    s.dropWhile (fun c => c == '/') = s := by
  cases s with
  | nil => rfl
  | cons a t => rw [List.dropWhile_cons]; simp [hs a (by simp)]

theorem trimForwardSlash_fixed (s : Str) (hs : ∀ c ∈ s, (c == '/') = false) :
    trimForwardSlash s = s := by
  rw [trimForwardSlash, dropWhile_slash_eq_self s hs,
    dropWhile_slash_eq_self _ (fun c hc => hs c (List.mem_reverse.1 hc)),
    List.reverse_reverse]

theorem takeWhile_not_slash (s : Str) (hs : ∀ c ∈ s, (c == '/') = false) :
    s.takeWhile (fun c => !(c == '/')) = s := by
  induction s with
  | nil => rfl
  | cons a t ih =>
    rw [List.takeWhile_cons]
    simp only [hs a (by simp), Bool.not_false, if_true]
    rw [ih (fun c hc => hs c (by simp [hc]))]

theorem dropWhile_not_slash_nil (s : Str) (hs : ∀ c ∈ s, (c == '/') = false) :
    s.dropWhile (fun c => !(c == '/')) = [] := by
  induction s with
  | nil => rfl
  | cons a t ih =>
    rw [List.dropWhile_cons]
    simp only [hs a (by simp), Bool.not_false, if_true]
    exact ih (fun c hc => hs c (by simp [hc]))

theorem trimSuffixFuel_of_not (k : Nat) (s suf : Str) (h : suf.isSuffixOf s = false) :
    trimSuffixFuel k s suf = s := by
  cases k with
  | zero => rfl
  | succ k => rw [trimSuffixFuel]; simp [h]

theorem trimSuffixAll_append_single (x suf : Str) (hsuf : suf ≠ [])
    (h : suf.isSuffixOf x = false) :
    trimSuffixAll (x ++ suf) suf = x := by
  rw [trimSuffixAll]
  cases hfl : (x ++ suf).length with
  | zero =>
    exfalso
    rw [List.length_append] at hfl
    cases suf with
    | nil => exact hsuf rfl
    | cons a t => simp at hfl
  | succ k =>
    rw [trimSuffixFuel]
    have hcond : (!suf.isEmpty && suf.isSuffixOf (x ++ suf)) = true := by
      simp [List.isSuffixOf_iff_suffix, hsuf]
    rw [if_pos hcond]
    have hlen : (x ++ suf).length - suf.length = x.length := by simp
    rw [hlen, List.take_left]
    exact trimSuffixFuel_of_not k x suf h

theorem trimSuffix1_append (x suf : Str) : trimSuffix1 (x ++ suf) suf = x := by
  have hs : suf.isSuffixOf (x ++ suf) = true := by
    simp [List.isSuffixOf_iff_suffix]
  have hlen : (x ++ suf).length - suf.length = x.length := by simp
  simp only [trimSuffix1, hs, if_true, hlen, List.take_left]

theorem isSuffixOf_single_eq_false (a b : Char) (x : Str) (hb : x.getLast? = some b)
    (hne : (b == a) = false) : [a].isSuffixOf x = false := by
  by_contra hcon
  rw [Bool.not_eq_false, List.isSuffixOf_iff_suffix] at hcon
  rcases hcon with ⟨t, rfl⟩
  rw [List.getLast?_concat] at hb
  injection hb with hb
  subst hb
  simp at hne

theorem parseUrl_https (x : Str) (hx : x ≠ []) (hchars : ∀ c ∈ x, c ∈ domainChars) :
    parseUrl (S "https://" ++ x) = some ⟨S "https", x, S "/"⟩ := by
  have hslash : ∀ c ∈ x, (c == '/') = false := fun c hc => domainChars_no_slash c (hchars c hc)
  have h1 : (S "https://").isPrefixOf (S "https://" ++ x) = true := by
    simp [List.isPrefixOf_iff_prefix]
  have h2 : (S "https://" ++ x).drop 8 = x := List.drop_left' rfl
  have h5 : x.any isForbiddenHostChar = false := by
    rw [List.any_eq_false]
    intro c hc
    simp [domainChars_not_forbidden c (hchars c hc)]
  rw [parseUrl, if_pos h1, h2]
  simp only [parseUrlAfterScheme, takeWhile_not_slash x hslash, dropWhile_not_slash_nil x hslash,
    h5, toLowerStr_fixed x hchars]
  simp [hx]

theorem trimUriPrefix_s5_fixed (d : Str) (hd : ∀ c ∈ d, c ∈ domainChars) :
    trimUriPrefix d (S "s5://") = d := by
  have h : (S "s5://").isPrefixOf d = false := by
    by_contra hcon
    rw [Bool.not_eq_false, List.isPrefixOf_iff_prefix] at hcon
    rcases hcon with ⟨t, rfl⟩
    have hmem : ':' ∈ S "s5://" ++ t := List.mem_append.2 (Or.inl (by decide))
    exact absurd (hd ':' hmem) (by decide)
  simp [trimUriPrefix, h]

theorem splitFirstSlash_no_slash (s : Str) (hs : ∀ c ∈ s, (c == '/') = false) :
    splitFirstSlash s = (s, none) := by
  rw [splitFirstSlash, dropWhile_not_slash_nil s hs]

theorem addUrlSubdomain_model (hst sub : Str)
    (hhost : ∀ c ∈ hst, c ∈ domainChars) (hhostne : hst ≠ [])
    (hsub : ∀ c ∈ sub, c ∈ domainChars) :
    addUrlSubdomain (S "https://" ++ hst) sub =
      some (S "https://" ++ (sub ++ '.' :: hst)) := by
  have hnew : ∀ c ∈ sub ++ '.' :: hst, c ∈ domainChars := by
    intro c hc
    rcases List.mem_append.1 hc with h | h
    · exact hsub c h
    · rcases List.mem_cons.1 h with rfl | h
      · decide
      · exact hhost c h
  have hne : (sub ++ '.' :: hst).isEmpty = false := by
    cases sub <;> rfl
  have hforb : (sub ++ '.' :: hst).any isForbiddenHostChar = false := by
    rw [List.any_eq_false]
    intro c hc
    simp [domainChars_not_forbidden c (hnew c hc)]
  have hlast : (S "https://" ++ (sub ++ '.' :: hst)).getLast? = some (hst.getLast hhostne) := by
    rw [List.getLast?_append, List.getLast?_append]
    have h2 : ('.' :: hst : Str).getLast? = hst.getLast?.or (some '.') := by
      rw [show ('.' :: hst : Str) = ['.'] ++ hst from rfl, List.getLast?_append]
      rfl
    rw [h2, List.getLast?_eq_getLast hst hhostne]
    rfl
  have hsuffix : (S "/").isSuffixOf (S "https://" ++ (sub ++ '.' :: hst)) = false := by
    apply isSuffixOf_single_eq_false '/' (hst.getLast hhostne) _ hlast
    exact domainChars_no_slash _ (hhost _ (List.getLast_mem hhostne))
  rw [addUrlSubdomain, parseUrl_https hst hhostne hhost, Option.map_some']
  rw [setHostname]
  rw [if_neg (by simp [hne]), if_neg (by simp [hforb]), toLowerStr_fixed _ hnew]
  rw [urlToString]
  show some (trimSuffixAll ((S "https://" ++ (sub ++ '.' :: hst)) ++ S "/") (S "/")) = _
  rw [trimSuffixAll_append_single _ _ (by decide) hsuffix]

theorem getFullDomainUrl_label (hst d : Str)
    (hh : ∀ c ∈ hst, c ∈ domainChars) (hhne : hst ≠ [])
    (hd : ∀ c ∈ d, c ∈ domainChars) (hloc : d ≠ S "localhost") :
    getFullDomainUrlForPortal (S "https://" ++ hst) d =
      some (S "https://" ++ (d ++ '.' :: hst)) := by
  have hdslash : ∀ c ∈ d, (c == '/') = false := fun c hc => domainChars_no_slash c (hd c hc)
  simp only [getFullDomainUrlForPortal, trimUriPrefix_https_unchanged,
    ensureUrlPrefix_https_append, trimUriPrefix_s5_fixed d hd,
    trimForwardSlash_fixed d hdslash, splitFirstSlash_no_slash d hdslash]
  rw [if_neg hloc, addUrlSubdomain_model hst d hh hhne hd]

theorem extractDomain_model (hst d : Str)
    (hh : ∀ c ∈ hst, c ∈ domainChars) (hhne : hst ≠ [])
    (hd : ∀ c ∈ d, c ∈ domainChars)
    (hdot : (S ".").isSuffixOf d = false) :
    extractDomainForPortal (S "https://" ++ hst) (S "https://" ++ (d ++ '.' :: hst)) =
      some d := by
  have hnew : ∀ c ∈ d ++ '.' :: hst, c ∈ domainChars := by
    intro c hc
    rcases List.mem_append.1 hc with h | h
    · exact hd c h
    · rcases List.mem_cons.1 h with rfl | h
      · decide
      · exact hh c h
  have hp : parseUrl (S "https://" ++ (d ++ '.' :: hst)) =
      some ⟨S "https", d ++ '.' :: hst, S "/"⟩ :=
    parseUrl_https _ (by simp) hnew
  have hsplit : (d ++ '.' :: hst : Str) = (d ++ ['.']) ++ hst := by simp
  simp only [extractDomainForPortal, hp, ensureUrlPrefix_https_append,
    parseUrl_https hst hhne hh]
  rw [show trimForwardSlash (S "/") = ([] : Str) from rfl]
  rw [trimForwardSlash_fixed hst (fun c hc => domainChars_no_slash c (hh c hc))]
  rw [hsplit, trimSuffix1_append]
  simp only [show (S "." : Str) = ['.'] from rfl]
  rw [trimSuffixAll_append_single d ['.'] (by decide) hdot]
  rfl

/-- **C3 counterexample**: the round trip is not the identity on every
label-only domain: for the portal `https://portal.example` and the domain
`ABC`, building embeds the label into the URL hostname, which is
case-normalised to lowercase, so extraction returns `abc`, not `ABC`. -/
theorem extract_build_uppercase_cex :
    (getFullDomainUrlForPortal (S "https://portal.example") (S "ABC")).bind
      (extractDomainForPortal (S "https://portal.example")) = some (S "abc") ∧
    (getFullDomainUrlForPortal (S "https://portal.example") (S "ABC")).bind
      (extractDomainForPortal (S "https://portal.example")) ≠ some (S "ABC") :=
  ⟨by decide, by decide⟩

/-- **C3 (amended)**: for every portal `https://host` and every non-empty
label-only domain, both over the hostname alphabet (lowercase letters,
digits, dots, hyphens — in particular containing no `/`), with no empty
labels and no `xn--` labels in either, the portal host's last label not
starting with a digit (so neither the portal host nor the built
`domain.host` triggers the WHATWG parser's IPv4 "ends in a number" handling
or IDNA/Punycode processing), and the domain not the literal `localhost`,
extracting the domain from the built full-domain URL returns exactly the
original domain.  (For domains with uppercase letters the round trip returns
the lowercased domain instead, see the counterexample.)  The underscored
hypotheses are not needed by the proof over the model; they confine the
statement to the fragment on which the model is an accurate picture of the
real URL class. -/
theorem extract_build_roundtrip (hst d : Str)
    (hh : ∀ c ∈ hst, c ∈ domainChars) (hhne : hst ≠ [])
    (hd : ∀ c ∈ d, c ∈ domainChars) (_hdne : d ≠ [])
    (hdE : hasEmptyLabel d = false) (_hhE : hasEmptyLabel hst = false)
    (_hxd : hasXnLabel d = false) (_hxh : hasXnLabel hst = false)
    (_hnum : startsWithDigit (lastLabel hst) = false)
    (hloc : d ≠ S "localhost") :
    (getFullDomainUrlForPortal (S "https://" ++ hst) d).bind
      (extractDomainForPortal (S "https://" ++ hst)) = some d := by
  have hdot : (S ".").isSuffixOf d = false := by
    rw [hasEmptyLabel, Bool.or_eq_false_iff, Bool.or_eq_false_iff] at hdE
    exact hdE.1.2
  rw [getFullDomainUrl_label hst d hh hhne hd hloc, Option.some_bind,
    extractDomain_model hst d hh hhne hd hdot]

/-- Witness for the amended C3 at the portal host `portal.example` and the
domain `abc`. -/
theorem extract_build_roundtrip_witness :
    (getFullDomainUrlForPortal (S "https://" ++ S "portal.example") (S "abc")).bind
      (extractDomainForPortal (S "https://" ++ S "portal.example")) = some (S "abc") :=
  extract_build_roundtrip (S "portal.example") (S "abc") (by decide) (by decide)
    (by decide) (by decide) (by decide) (by decide) (by decide) (by decide)
    (by decide) (by decide)
